import Mathlib

/-!
Verification of the expense-ledger core of `src/bot.py` (class `ExpenseTracker`).

The embedding models:
* Python naive `datetime` values as a record of calendar/clock fields, compared
  field-wise lexicographically (this is the order Python's `datetime.__le__`
  realizes on naive values);
* `timedelta(days=7)` subtraction as seven proleptic-Gregorian predecessor-day
  steps with the time-of-day fields untouched, exactly what naive-datetime
  arithmetic does;
* a stored record's `date` string by the outcome of
  `datetime.fromisoformat(s.replace('Z', '+00:00'))`: either the parse raises
  (`malformed`), or it yields a naive datetime, or an offset-aware one.  The
  only comparison the source performs on a parsed date compares it with a
  naive `start_date`, which raises `TypeError` on aware values; both
  exceptions are caught by the bare `except` and skip the record;
* the persistence medium (`expenses_<user>.json`) as the parsed content of the
  file: `none` when the file is missing or undecodable, `some l` otherwise.
  `json.dump`/`json.load` are external-library inverses on the stored value,
  so the file content is modelled at the level of the record list itself;
* the `amount` field twice, at two levels of numeric fidelity.  The exact
  model (`Expense.amount : ℚ`) tracks the exact values of the amounts and is
  adequate for every property that does not depend on rounding.  The program,
  however, stores Python floats and sums them with IEEE-754 binary64
  addition, which rounds after every step, so exact regrouping and
  reordering identities fail on it (`0.1 + 0.2 + 0.3` left to right is
  `0.6000000000000001`, right to left `0.6`).  For the properties whose
  truth depends on this, a second ledger model (`ExpenseF`) carries amounts
  as `F64`: exact dyadic rationals `m * 2^e` in canonical form, added by
  `fadd`, which realizes binary64 round-to-nearest, ties-to-even (the normal
  range suffices: currency amounts and their sums never overflow, underflow
  or go subnormal).
-/

namespace Bot

/-- A Python naive `datetime` value: calendar and clock fields. -/
structure DateTime where
  year : Nat
  month : Nat
  day : Nat
  hour : Nat
  minute : Nat
  second : Nat
  microsecond : Nat
deriving DecidableEq

/-- The comparison key of a datetime, most significant field first. -/
def DateTime.fields (t : DateTime) : List Nat :=
  [t.year, t.month, t.day, t.hour, t.minute, t.second, t.microsecond]

/-- Lexicographic `≤` on equal-length lists of naturals. -/
def natLexLe : List Nat → List Nat → Bool
  | [], [] => true
  | x :: xs, y :: ys => if x ≠ y then decide (x < y) else natLexLe xs ys
  | _, _ => true

/-- `a <= b` on naive datetimes: Python compares field-wise, most significant
field first. -/
def DateTime.le (a b : DateTime) : Bool :=
  natLexLe a.fields b.fields

/-- Gregorian leap-year rule (as in Python's `calendar`/`datetime`). -/
def isLeap (y : Nat) : Bool :=
  y % 4 == 0 && (y % 100 != 0 || y % 400 == 0)

/-- Number of days of month `m` in year `y`. -/
def daysInMonth (y m : Nat) : Nat :=
  if m == 2 then (if isLeap y then 29 else 28)
  else if m == 4 || m == 6 || m == 9 || m == 11 then 30
  else 31

/-- The field ranges Python's `datetime` constructor enforces; every value
`datetime.now()` or `fromisoformat` produces satisfies this. -/
def DateTime.isValid (t : DateTime) : Bool :=
  1 ≤ t.year && t.year ≤ 9999 &&
  1 ≤ t.month && t.month ≤ 12 &&
  1 ≤ t.day && t.day ≤ daysInMonth t.year t.month &&
  t.hour ≤ 23 && t.minute ≤ 59 && t.second ≤ 59 && t.microsecond ≤ 999999

/-- `now.replace(hour=0, minute=0, second=0, microsecond=0)` (bot.py line 115). -/
def startOfDay (now : DateTime) : DateTime :=
  { now with hour := 0, minute := 0, second := 0, microsecond := 0 }

/-- `now.replace(day=1, hour=0, minute=0, second=0, microsecond=0)` (line 119). -/
def startOfMonth (now : DateTime) : DateTime :=
  { now with day := 1, hour := 0, minute := 0, second := 0, microsecond := 0 }

/-- `now.replace(month=1, day=1, hour=0, ...)` (line 121). -/
def startOfYear (now : DateTime) : DateTime :=
  { now with month := 1, day := 1, hour := 0, minute := 0, second := 0, microsecond := 0 }

/-- The previous calendar day, time of day unchanged (proleptic Gregorian). -/
def prevDay (t : DateTime) : DateTime :=
  if 2 ≤ t.day then { t with day := t.day - 1 }
  else if 2 ≤ t.month then { t with month := t.month - 1, day := daysInMonth t.year (t.month - 1) }
  else { t with year := t.year - 1, month := 12, day := 31 }

/-- `t - timedelta(days=n)` on a naive datetime: `n` predecessor-day steps. -/
def subDays : DateTime → Nat → DateTime
  | t, 0 => t
  | t, n + 1 => subDays (prevDay t) n

/-- `datetime.min` (line 123): year 1, January 1, midnight. -/
def datetimeMin : DateTime := ⟨1, 1, 1, 0, 0, 0, 0⟩

/-- The `start_date` computation of `get_summary` (bot.py lines 113-123). -/
def startDate (period : String) (now : DateTime) : DateTime :=
  if period = "day" then startOfDay now
  else if period = "week" then subDays now 7
  else if period = "month" then startOfMonth now
  else if period = "year" then startOfYear now
  else datetimeMin

/-- The stored `date` string of a record, abstracted by what
`datetime.fromisoformat(s.replace('Z', '+00:00'))` yields on it:
`malformed` when the parse raises `ValueError`, `naive t` for a plain
timestamp, `aware t off` for a timestamp carrying a UTC offset of `off`
minutes (for example a string ending in `Z` or `+00:00`). -/
inductive DateVal where
  | malformed : DateVal
  | naive : DateTime → DateVal
  | aware : DateTime → Int → DateVal
deriving DecidableEq

/-- One entry of a user's ledger, the dict built at bot.py lines 96-102. -/
structure Expense where
  id : Int
  date : DateVal
  amount : ℚ
  category : String
  description : String
deriving DecidableEq

/-- `datetime.fromisoformat(expense['date'].replace('Z', '+00:00')) >= start`
with `start` naive, as evaluated inside the `try` at bot.py lines 127-130:
`none` models the guarded exceptions (a `ValueError` from the parse of a
malformed string, or the `TypeError` raised when an offset-aware datetime is
compared with the naive `start_date`); `some b` is the comparison's outcome. -/
def parsedGeStart (d : DateVal) (start : DateTime) : Option Bool :=
  match d with
  | DateVal.malformed => none
  | DateVal.naive t => some (DateTime.le start t)
  | DateVal.aware _ _ => none

/-- The in-memory state of one user's `ExpenseTracker` together with the
content of its backing file: `disk = none` models a missing or undecodable
`expenses_<user>.json`, `disk = some l` a file holding the record list `l`. -/
structure ExpenseTracker where
  expenses : List Expense
  disk : Option (List Expense)
deriving DecidableEq

/-- `load_expenses` (bot.py lines 77-86): the parsed file content, or `[]`
when opening or decoding it fails. -/
def load_expenses (disk : Option (List Expense)) : List Expense :=
  match disk with
  | some data => data
  | none => []

/-- `ExpenseTracker.__init__` (lines 68-75): eagerly load the backing file. -/
def initTracker (disk : Option (List Expense)) : ExpenseTracker :=
  { expenses := load_expenses disk, disk := disk }

/-- `save_expenses` (lines 88-92): rewrite the whole file from memory. -/
def save_expenses (self : ExpenseTracker) : ExpenseTracker :=
  { self with disk := some self.expenses }

/-- `add_expense` (lines 94-106): build the record with
`id = len(self.expenses) + 1` and the current time, append it, save, and
return it.  Note the source performs no validation of `amount` here. -/
def add_expense (self : ExpenseTracker) (now : DateTime) (amount : ℚ)
    (category : String) (description : String) : ExpenseTracker × Expense :=
  let expense : Expense :=
    { id := (self.expenses.length : Int) + 1
      date := DateVal.naive now
      amount := amount
      category := category
      description := description }
  let self' := { self with expenses := self.expenses ++ [expense] }
  (save_expenses self', expense)

/-- The result dict of `get_summary` (lines 110-144). -/
structure Summary where
  total : ℚ
  by_category : List (String × ℚ)
  count : Nat
deriving DecidableEq

/-- The `filtered` list of `get_summary` (lines 125-132): the records whose
stored date parses and compares `>= start_date` without an exception. -/
def summaryFiltered (expenses : List Expense) (period : String) (now : DateTime) :
    List Expense :=
  expenses.filter (fun e => (parsedGeStart e.date (startDate period now)).getD false)

/-- `by_category[category] = by_category.get(category, 0) + exp['amount']`
(line 138) on an insertion-ordered association list, the model of a Python
dict. -/
def upsertCategory : List (String × ℚ) → String → ℚ → List (String × ℚ)
  | [], c, a => [(c, a)]
  | (c', v) :: rest, c, a =>
      if c' = c then (c', v + a) :: rest else (c', v) :: upsertCategory rest c a

/-- The `by_category` dict built by the loop at lines 135-138. -/
def byCategoryOf (filtered : List Expense) : List (String × ℚ) :=
  filtered.foldl (fun m e => upsertCategory m e.category e.amount) []

/-- `dict.get(c, 0)`-style lookup in the association-list model of a dict. -/
def lookupCat : List (String × ℚ) → String → ℚ
  | [], _ => 0
  | (c', v) :: rest, c => if c' = c then v else lookupCat rest c

/-- The sum of the values of the category dict. -/
def sumValues (m : List (String × ℚ)) : ℚ :=
  (m.map Prod.snd).sum

/-- `get_summary` (lines 108-144): early return on an empty ledger, else
filter by the period's start date and aggregate. -/
def get_summary (expenses : List Expense) (period : String) (now : DateTime) :
    Summary :=
  if expenses.isEmpty then { total := 0, by_category := [], count := 0 }
  else
    let filtered := summaryFiltered expenses period now
    { total := (filtered.map Expense.amount).sum
      by_category := byCategoryOf filtered
      count := filtered.length }

/-- The key order of `sorted(self.expenses, key=lambda x: x.get('date', ''))`
(lines 149-151).  The source compares the stored date *strings*; on naive
ISO-format strings as written by `add_expense` (zero-padded fields, optional
microsecond suffix) string order coincides with datetime order, which is the
`naive`/`naive` case below — the only case the claims exercise.  The
remaining cases are a fixed total order standing in for string order on
values whose underlying string the abstraction does not retain. -/
def DateVal.keyLe : DateVal → DateVal → Bool
  | DateVal.malformed, _ => true
  | _, DateVal.malformed => false
  | DateVal.naive t1, DateVal.naive t2 => t1.le t2
  | DateVal.naive t1, DateVal.aware t2 _ => t1.le t2
  | DateVal.aware t1 _, DateVal.naive t2 => t1.le t2
  | DateVal.aware t1 _, DateVal.aware t2 _ => t1.le t2

/-- `a` may be placed before `b` by the descending sort: `a`'s key is at
least `b`'s. -/
def recentOrder (a b : Expense) : Prop :=
  DateVal.keyLe b.date a.date = true

instance : DecidableRel recentOrder :=
  fun _ _ => Bool.decEq _ _

/-- `get_recent_expenses` (lines 146-154): a stable descending sort by the
date key, then the first `limit` entries.  Python's `sorted` builds a new
list (the stored sequence is not touched) and is stable; with a total
transitive key order its output is the unique stably-sorted permutation,
here realized by insertion sort.  The `except` branch returning `[]` is
unreachable in the model: the keys are always mutually comparable. -/
def get_recent_expenses (expenses : List Expense) (limit : Nat) : List Expense :=
  (List.insertionSort recentOrder expenses).take limit

/-- The scan of `delete_expense`'s loop (lines 158-164): `some l'` when the
first record with the given id was dropped, `none` when no record matches. -/
def removeFirst : List Expense → Int → Option (List Expense)
  | [], _ => none
  | e :: es, eid =>
      if e.id = eid then some es else (removeFirst es eid).map (fun l => e :: l)

/-- `delete_expense` (lines 156-164): delete the first record with the given
id and save, returning `true`; return `false` (no save, no change) when no
record matches. -/
def delete_expense (self : ExpenseTracker) (eid : Int) : ExpenseTracker × Bool :=
  match removeFirst self.expenses eid with
  | some l' => ({ expenses := l', disk := some l' }, true)
  | none => (self, false)

/-- The chat layer's amount validation (`amount_received`, bot.py lines
249-258): `none` is the input that re-prompts without reaching the store —
text `float()` rejects (modelled by the argument `none`) or an amount `≤ 0`;
`some a` is a positive amount that proceeds towards `add_expense`. -/
def amount_received (text : Option ℚ) : Option ℚ :=
  match text with
  | none => none
  | some a => if a ≤ 0 then none else some a

/-- A fixed valid clock reading used by concrete witnesses. -/
def sampleNow : DateTime := ⟨2024, 5, 15, 12, 30, 0, 0⟩

/-- A timestamp earlier the same day as `sampleNow`, used by witnesses. -/
def tMorning : DateTime := ⟨2024, 5, 15, 10, 0, 0, 0⟩

def eFood1 : Expense :=
  { id := 1, date := DateVal.naive tMorning, amount := 10, category := "Food", description := "" }

def eFood2 : Expense :=
  { id := 2, date := DateVal.naive tMorning, amount := 5, category := "Food", description := "" }

def eTransport : Expense :=
  { id := 3, date := DateVal.naive tMorning, amount := 20, category := "Transport", description := "" }

/-- The ledger of the spec's category-aggregation example. -/
def demoLedger : List Expense := [eFood1, eFood2, eTransport]

/-- A record whose stored date string does not parse. -/
def eBadDate : Expense :=
  { id := 2, date := DateVal.malformed, amount := 4, category := "Food", description := "" }

/-- A record whose stored date string parses offset-aware (for example one
ending in `Z`, which the source rewrites to `+00:00` before parsing). -/
def eAware : Expense :=
  { id := 2, date := DateVal.aware tMorning 0, amount := 4, category := "Food", description := "" }

def eDupA : Expense :=
  { id := 3, date := DateVal.naive tMorning, amount := 7, category := "Food", description := "" }

def eDupB : Expense :=
  { id := 3, date := DateVal.naive tMorning, amount := 9, category := "Tech", description := "" }

/-- A tracker whose ledger carries two records with the same id 3.  This
state is reachable through the source's own operations: add three records
(ids 1, 2, 3), delete id 2, then add again — the new record gets
`id = len + 1 = 3`, colliding with the surviving record of id 3. -/
def dupStore : ExpenseTracker :=
  { expenses := [eFood1, eDupA, eDupB], disk := some [eFood1, eDupA, eDupB] }

/-- Trailing zero bits of `n`, with explicit fuel (`fuel ≥ log2 n` suffices,
and `ctz` below passes `n` itself as fuel). -/
def ctzAux (fuel n : Nat) : Nat :=
  match fuel, n with
  | 0, _ => 0
  | _, 0 => 0
  | fuel + 1, n => if n % 2 = 1 then 0 else ctzAux fuel (n / 2) + 1

def ctz (n : Nat) : Nat := ctzAux n n

/-- Bit length of `n` (`⌊log2 n⌋ + 1` for `n > 0`), with explicit fuel. -/
def bitLenAux (fuel n : Nat) : Nat :=
  match fuel, n with
  | 0, _ => 0
  | _, 0 => 0
  | fuel + 1, n => bitLenAux fuel (n / 2) + 1

def bitLen (n : Nat) : Nat := bitLenAux n n

/-- An IEEE-754 binary64 value in the normal range, represented exactly as
the dyadic rational `m * 2^e`.  `normF` keeps `m` odd (or the value `⟨0, 0⟩`),
so two `F64` values are equal iff they denote the same real number. -/
structure F64 where
  m : Int
  e : Int
deriving DecidableEq

/-- Canonical form: strip factors of two out of the significand. -/
def normF (m : Int) (e : Int) : F64 :=
  if m = 0 then ⟨0, 0⟩
  else
    let t := ctz m.natAbs
    ⟨m / ((Nat.pow 2 t : Nat) : Int), e + t⟩

/-- Round the exact value `M * 2^e` to 53 significant bits, to nearest with
ties to even — the binary64 rounding of every arithmetic result.  A value
already within 53 bits is exact.  (No overflow/subnormal handling: all
modelled computations stay in the normal range.) -/
def round53 (M : Int) (e : Int) : Int × Int :=
  let n := M.natAbs
  if n < Nat.pow 2 53 then (M, e)
  else
    let k := bitLen n - 53
    let q := n / Nat.pow 2 k
    let r := n % Nat.pow 2 k
    let half := Nat.pow 2 (k - 1)
    let q' := if half < r ∨ (r = half ∧ q % 2 = 1) then q + 1 else q
    ((if M < 0 then -(q' : Int) else (q' : Int)), e + (k : Int))

/-- Binary64 addition: add the two dyadic values exactly at the smaller
exponent, then round the sum to 53 significant bits (nearest, ties to even).
This is exactly Python's `float.__add__` inside the normal range. -/
def fadd (x y : F64) : F64 :=
  let e := if x.e ≤ y.e then x.e else y.e
  let M := x.m * ((Nat.pow 2 (x.e - e).toNat : Nat) : Int) +
           y.m * ((Nat.pow 2 (y.e - e).toNat : Nat) : Int)
  let p := round53 M e
  normF p.1 p.2

/-- `float(0)`, the start value of Python's `sum` and of `dict.get(c, 0)`. -/
def zeroF : F64 := ⟨0, 0⟩

/-- `float(n)`: exact for `n < 2^53`, which covers every value used here. -/
def floatOfNat (n : Nat) : F64 := normF n 0

/-- `float('0.1')`, the binary64 double nearest to 1/10. -/
def f01 : F64 := ⟨3602879701896397, -55⟩

/-- `float('0.2')`, the binary64 double nearest to 2/10. -/
def f02 : F64 := ⟨3602879701896397, -54⟩

/-- `float('0.3')`, the binary64 double nearest to 3/10. -/
def f03 : F64 := ⟨5404319552844595, -54⟩

/-- A ledger record with its amount at float fidelity: the same dict as
`Expense`, but `amount` carries the IEEE-754 value the program stores. -/
structure ExpenseF where
  id : Int
  date : DateVal
  amount : F64
  category : String
  description : String
deriving DecidableEq

/-- The `get_summary` result dict at float fidelity. -/
structure SummaryF where
  total : F64
  by_category : List (String × F64)
  count : Nat
deriving DecidableEq

/-- The `filtered` list of `get_summary` (lines 125-132) over float-fidelity
records — the filter reads only the date, so it is the same computation as
`summaryFiltered`. -/
def summaryFilteredF (expenses : List ExpenseF) (period : String) (now : DateTime) :
    List ExpenseF :=
  expenses.filter (fun e => (parsedGeStart e.date (startDate period now)).getD false)

/-- `by_category[category] = by_category.get(category, 0) + exp['amount']`
(line 138) with the `+` being float addition: an absent key starts from
`float(0)`. -/
def upsertCategoryF : List (String × F64) → String → F64 → List (String × F64)
  | [], c, a => [(c, fadd zeroF a)]
  | (c', v) :: rest, c, a =>
      if c' = c then (c', fadd v a) :: rest else (c', v) :: upsertCategoryF rest c a

/-- The `by_category` dict of lines 135-138 over float amounts. -/
def byCategoryOfF (filtered : List ExpenseF) : List (String × F64) :=
  filtered.foldl (fun m e => upsertCategoryF m e.category e.amount) []

/-- `dict.get(c, 0)`-style lookup in the float category dict. -/
def lookupCatF : List (String × F64) → String → F64
  | [], _ => zeroF
  | (c', v) :: rest, c => if c' = c then v else lookupCatF rest c

/-- The left-to-right float sum of the category dict's values. -/
def sumValuesF (m : List (String × F64)) : F64 :=
  List.foldl fadd zeroF (m.map Prod.snd)

/-- `get_summary` (lines 108-144) at float fidelity: Python's `sum` is the
left fold of float addition starting from `0`. -/
def get_summary_float (expenses : List ExpenseF) (period : String) (now : DateTime) :
    SummaryF :=
  if expenses.isEmpty then { total := zeroF, by_category := [], count := 0 }
  else
    let filtered := summaryFilteredF expenses period now
    { total := List.foldl fadd zeroF (filtered.map ExpenseF.amount)
      by_category := byCategoryOfF filtered
      count := filtered.length }

/-- The spec's aggregation example at float fidelity (integer amounts, every
addition exact). -/
def eF10 : ExpenseF :=
  { id := 1, date := DateVal.naive tMorning, amount := floatOfNat 10,
    category := "Food", description := "" }

def eF5 : ExpenseF :=
  { id := 2, date := DateVal.naive tMorning, amount := floatOfNat 5,
    category := "Food", description := "" }

def eT20 : ExpenseF :=
  { id := 3, date := DateVal.naive tMorning, amount := floatOfNat 20,
    category := "Transport", description := "" }

def demoLedgerF : List ExpenseF := [eF10, eF5, eT20]

/-- Records whose amounts are the user inputs 0.1, 0.2, 0.3 — all reachable
through the bot's `/add` flow. -/
def eC1 : ExpenseF :=
  { id := 1, date := DateVal.naive tMorning, amount := f01,
    category := "Food", description := "" }

def eC2 : ExpenseF :=
  { id := 2, date := DateVal.naive tMorning, amount := f02,
    category := "Transport", description := "" }

def eC3 : ExpenseF :=
  { id := 3, date := DateVal.naive tMorning, amount := f03,
    category := "Transport", description := "" }

theorem natLexLe_total : ∀ xs ys : List Nat, natLexLe xs ys = true ∨ natLexLe ys xs = true
  | [], [] => Or.inl rfl
  | [], _ :: _ => Or.inl rfl
  | _ :: _, [] => Or.inr rfl
  | x :: xs, y :: ys => by
      by_cases h : x = y
      · subst h
        simpa [natLexLe] using natLexLe_total xs ys
      · simp only [natLexLe, if_pos h, if_pos (Ne.symm h), decide_eq_true_eq]
        omega

theorem natLexLe_trans : ∀ xs ys zs : List Nat,
    xs.length = ys.length → ys.length = zs.length →
    natLexLe xs ys = true → natLexLe ys zs = true → natLexLe xs zs = true
  | [], [], [], _, _, _, _ => rfl
  | [], [], _ :: _, _, h, _, _ => by simp at h
  | [], _ :: _, _, h, _, _, _ => by simp at h
  | _ :: _, [], _, h, _, _, _ => by simp at h
  | _ :: _, _ :: _, [], _, h, _, _ => by simp at h
  | x :: xs, y :: ys, z :: zs, h1, h2, hxy, hyz => by
      simp only [List.length_cons, Nat.succ_inj] at h1 h2
      by_cases e1 : x = y <;> by_cases e2 : y = z
      · subst e1; subst e2
        simp only [natLexLe, if_neg (by omega : ¬ x ≠ x)] at hxy hyz ⊢
        exact natLexLe_trans xs ys zs h1 h2 hxy hyz
      · subst e1
        simp only [natLexLe, if_pos e2] at hyz
        simp only [natLexLe, if_pos e2]
        exact hyz
      · subst e2
        simp only [natLexLe, if_pos e1] at hxy
        simp only [natLexLe, if_pos e1]
        exact hxy
      · simp only [natLexLe, if_pos e1, decide_eq_true_eq] at hxy
        simp only [natLexLe, if_pos e2, decide_eq_true_eq] at hyz
        have hxz : x < z := lt_trans hxy hyz
        simp only [natLexLe, if_pos (by omega : x ≠ z), decide_eq_true_eq]
        exact hxz

theorem DateTime.le_total (a b : DateTime) : a.le b = true ∨ b.le a = true :=
  natLexLe_total a.fields b.fields

theorem DateTime.le_trans (a b c : DateTime) (h1 : a.le b = true) (h2 : b.le c = true) :
    a.le c = true :=
  natLexLe_trans a.fields b.fields c.fields rfl rfl h1 h2

/-- Every datetime Python can construct is at least `datetime.min`. -/
theorem datetimeMin_le (t : DateTime) (h : t.isValid = true) :
    DateTime.le datetimeMin t = true := by
  obtain ⟨y, mo, d, hh, mi, s, us⟩ := t
  simp only [DateTime.isValid, Bool.and_eq_true, decide_eq_true_eq] at h
  simp only [DateTime.le, DateTime.fields, datetimeMin, natLexLe]
  split_ifs <;>
    first
      | rfl
      | (simp only [decide_eq_true_eq]; omega)

theorem DateVal.keyLe_total (a b : DateVal) : a.keyLe b = true ∨ b.keyLe a = true := by
  cases a <;> cases b <;>
    first
      | exact Or.inl rfl
      | exact Or.inr rfl
      | exact DateTime.le_total _ _

theorem DateVal.keyLe_trans (a b c : DateVal)
    (h1 : a.keyLe b = true) (h2 : b.keyLe c = true) : a.keyLe c = true := by
  cases a <;> cases b <;> cases c <;>
    simp only [DateVal.keyLe] at h1 h2 ⊢ <;>
    first
      | rfl
      | exact h1
      | exact h2
      | exact Bool.noConfusion h1
      | exact Bool.noConfusion h2
      | exact DateTime.le_trans _ _ _ h1 h2

theorem lookupCat_upsert (m : List (String × ℚ)) (c' : String) (a : ℚ) (c : String) :
    lookupCat (upsertCategory m c' a) c = lookupCat m c + (if c' = c then a else 0) := by
  induction m with
  | nil =>
      simp only [upsertCategory, lookupCat]
      split_ifs <;> simp
  | cons hd tl ih =>
      obtain ⟨c0, v0⟩ := hd
      simp only [upsertCategory]
      by_cases h0 : c0 = c'
      · subst h0
        simp only [if_pos rfl, lookupCat]
        split_ifs with h1
        · rfl
        · simp
      · simp only [if_neg h0, lookupCat]
        by_cases h1 : c0 = c
        · have h2 : ¬ c' = c := fun hc => h0 (h1.trans hc.symm)
          simp [if_pos h1, if_neg h2]
        · simp only [if_neg h1]
          exact ih

theorem sumValues_upsert (m : List (String × ℚ)) (c : String) (a : ℚ) :
    sumValues (upsertCategory m c a) = sumValues m + a := by
  induction m with
  | nil => simp [upsertCategory, sumValues]
  | cons hd tl ih =>
      obtain ⟨c0, v0⟩ := hd
      simp only [upsertCategory]
      split_ifs with h0
      · simp [sumValues, add_assoc, add_comm]
      · simp only [sumValues, List.map_cons, List.sum_cons] at ih ⊢
        rw [ih]
        ring

theorem sumValues_fold (l : List Expense) (m0 : List (String × ℚ)) :
    sumValues (l.foldl (fun m e => upsertCategory m e.category e.amount) m0) =
      sumValues m0 + (l.map Expense.amount).sum := by
  induction l generalizing m0 with
  | nil => simp
  | cons e l ih =>
      simp only [List.foldl_cons, List.map_cons, List.sum_cons]
      rw [ih, sumValues_upsert]
      ring

theorem lookupCat_fold (l : List Expense) (m0 : List (String × ℚ)) (c : String) :
    lookupCat (l.foldl (fun m e => upsertCategory m e.category e.amount) m0) c =
      lookupCat m0 c + ((l.filter (fun e => e.category = c)).map Expense.amount).sum := by
  induction l generalizing m0 with
  | nil => simp
  | cons e l ih =>
      simp only [List.foldl_cons]
      rw [ih, lookupCat_upsert]
      by_cases h : e.category = c
      · simp [List.filter_cons, h]
        ring
      · simp [List.filter_cons, h]

/-- The three fields of a `get_summary` result expressed over the filtered
record list, uniformly in the empty-ledger early return. -/
theorem get_summary_eval (expenses : List Expense) (period : String) (now : DateTime) :
    (get_summary expenses period now).total =
        ((summaryFiltered expenses period now).map Expense.amount).sum ∧
    (get_summary expenses period now).count = (summaryFiltered expenses period now).length ∧
    ∀ c, lookupCat (get_summary expenses period now).by_category c =
        (((summaryFiltered expenses period now).filter
            (fun e => e.category = c)).map Expense.amount).sum := by
  by_cases h : expenses.isEmpty
  · have h' : expenses = [] := List.isEmpty_iff.mp h
    subst h'
    simp [get_summary, summaryFiltered, lookupCat]
  · have hne : expenses.isEmpty = false := by
      cases hb : expenses.isEmpty
      · rfl
      · exact absurd hb h
    refine ⟨?_, ?_, fun c => ?_⟩
    · simp [get_summary, hne]
    · simp [get_summary, hne]
    · simp only [get_summary, hne, Bool.false_eq_true, if_false, byCategoryOf]
      rw [lookupCat_fold]
      simp [lookupCat]

/-- A record whose date comparison raises (and is skipped) contributes
nothing: the summary over the ledger with it equals the summary without it. -/
theorem get_summary_drop (pre post : List Expense) (bad : Expense) (period : String)
    (now : DateTime)
    (h : (parsedGeStart bad.date (startDate period now)).getD false = false) :
    get_summary (pre ++ bad :: post) period now = get_summary (pre ++ post) period now := by
  have hfil : summaryFiltered (pre ++ bad :: post) period now =
      summaryFiltered (pre ++ post) period now := by
    simp only [summaryFiltered, List.filter_append, List.filter_cons, h]
    simp
  by_cases hemp : (pre ++ post).isEmpty
  · have h' : pre ++ post = [] := List.isEmpty_iff.mp hemp
    have hpre : pre = [] := by
      cases pre with
      | nil => rfl
      | cons x xs => simp at h'
    have hpost : post = [] := by
      rw [hpre] at h'
      simpa using h'
    subst hpre; subst hpost
    simp only [List.nil_append] at hfil ⊢
    have hfe : summaryFiltered [bad] period now = [] := by
      rw [hfil]; rfl
    simp [get_summary, hfe, byCategoryOf]
  · have hne : ((pre ++ bad :: post).isEmpty) = false := by
      cases pre <;> simp
    have hne' : ((pre ++ post).isEmpty) = false := by
      cases hb : (pre ++ post).isEmpty
      · rfl
      · exact absurd hb hemp
    simp [get_summary, hne, hne', hfil]

theorem delete_not_found (st : ExpenseTracker) (eid : Int)
    (h : removeFirst st.expenses eid = none) : delete_expense st eid = (st, false) := by
  simp [delete_expense, h]

theorem removeFirst_eq_none (l : List Expense) (eid : Int) (h : ∀ x ∈ l, x.id ≠ eid) :
    removeFirst l eid = none := by
  induction l with
  | nil => rfl
  | cons e es ih =>
      simp only [removeFirst, if_neg (h e (by simp))]
      rw [ih (fun x hx => h x (by simp [hx]))]
      rfl

theorem removeFirst_append (l1 l2 : List Expense) (e : Expense) (eid : Int)
    (he : e.id = eid) (h1 : ∀ x ∈ l1, x.id ≠ eid) :
    removeFirst (l1 ++ e :: l2) eid = some (l1 ++ l2) := by
  induction l1 with
  | nil => simp [removeFirst, he]
  | cons x xs ih =>
      simp only [List.cons_append, removeFirst, if_neg (h1 x (by simp)), List.append_eq]
      rw [ih (fun y hy => h1 y (by simp [hy]))]
      rfl

/-- C4: `add_expense` appends exactly one record whose id is
`len(expenses) + 1`, whose timestamp is the current time, and whose amount,
category and description are the given arguments; it persists the full
ledger synchronously and returns the created record. -/
theorem c4_add_appends (self : ExpenseTracker) (now : DateTime) (amount : ℚ)
    (category description : String) :
    (add_expense self now amount category description).2 =
      { id := (self.expenses.length : Int) + 1, date := DateVal.naive now,
        amount := amount, category := category, description := description } ∧
    (add_expense self now amount category description).1.expenses =
      self.expenses ++ [(add_expense self now amount category description).2] ∧
    (add_expense self now amount category description).1.disk =
      some ((add_expense self now amount category description).1.expenses) ∧
    (add_expense self now amount category description).1.expenses.length =
      self.expenses.length + 1 :=
  ⟨rfl, rfl, rfl, by simp [add_expense, save_expenses]⟩

/-- C8: saving a ledger and constructing a new tracker over the same backing
document yields the identical record sequence (order and every field value
preserved), and in particular the same `get_recent_expenses` output. -/
theorem c8_round_trip (self : ExpenseTracker) :
    (initTracker (save_expenses self).disk).expenses = self.expenses ∧
    ∀ limit, get_recent_expenses (initTracker (save_expenses self).disk).expenses limit =
      get_recent_expenses self.expenses limit :=
  ⟨rfl, fun _ => rfl⟩

/-- Over the exact rational values of the amounts, every summary is
internally consistent: the total is the sum of the category-mapping values,
the count is the number of contributing records, and a count of 0 forces a
zero total and an empty mapping.  (Of the program's floats only the count
clauses survive; see the float-fidelity theorems.) -/
theorem exact_summary_invariant (expenses : List Expense) (period : String) (now : DateTime) :
    (get_summary expenses period now).total =
        sumValues (get_summary expenses period now).by_category ∧
    (get_summary expenses period now).count = (summaryFiltered expenses period now).length ∧
    ((get_summary expenses period now).count = 0 →
      (get_summary expenses period now).total = 0 ∧
      (get_summary expenses period now).by_category = []) := by
  by_cases h : expenses.isEmpty
  · have h' : expenses = [] := List.isEmpty_iff.mp h
    subst h'
    exact ⟨by simp [get_summary, sumValues], by simp [get_summary, summaryFiltered],
      fun _ => ⟨by simp [get_summary], by simp [get_summary]⟩⟩
  · have hne : expenses.isEmpty = false := by
      cases hb : expenses.isEmpty
      · rfl
      · exact absurd hb h
    have hgs : get_summary expenses period now =
        { total := ((summaryFiltered expenses period now).map Expense.amount).sum
          by_category := byCategoryOf (summaryFiltered expenses period now)
          count := (summaryFiltered expenses period now).length } := by
      simp [get_summary, hne]
    rw [hgs]
    refine ⟨?_, rfl, fun hc => ?_⟩
    · rw [byCategoryOf, sumValues_fold]
      simp [sumValues]
    · have hf : summaryFiltered expenses period now = [] :=
        List.length_eq_zero.mp hc
      rw [hf]
      exact ⟨by simp, by simp [byCategoryOf]⟩

/-- C1 fails on the code: the store's `add_expense` performs no validation,
so `add` with amount `-5` is not rejected — the record is appended and
persisted, and the ledger does not stay unmodified (its length grows from 0
to 1). -/
theorem c1_counterexample :
    (add_expense { expenses := [], disk := none } sampleNow (-5) "Food" "").1.expenses.length
        = 1 ∧
    (add_expense { expenses := [], disk := none } sampleNow (-5) "Food" "").1.disk ≠ none ∧
    ¬ ((add_expense { expenses := [], disk := none } sampleNow (-5) "Food" "").1.expenses
        = []) := by
  refine ⟨rfl, ?_, ?_⟩ <;> simp [add_expense, save_expenses]

/-- C1 amended: a non-positive amount is not rejected by the store —
`add_expense` appends and persists it like any other record — and the only
rejection of `amount <= 0` happens upstream, in the chat layer's amount
handler, which re-prompts without invoking the store, leaving the ledger
unmodified. -/
theorem c1_amended (self : ExpenseTracker) (now : DateTime) (category description : String)
    (amount : ℚ) (h : amount ≤ 0) :
    (add_expense self now amount category description).1.expenses.length =
      self.expenses.length + 1 ∧
    (add_expense self now amount category description).1.disk =
      some ((add_expense self now amount category description).1.expenses) ∧
    amount_received (some amount) = none :=
  ⟨by simp [add_expense, save_expenses], rfl, by simp [amount_received, h]⟩

theorem c1_witness :
    ((-5 : ℚ) ≤ 0) ∧
    ((add_expense { expenses := [], disk := none } sampleNow (-5) "Food" "").1.expenses.length
        = ([] : List Expense).length + 1 ∧
    (add_expense { expenses := [], disk := none } sampleNow (-5) "Food" "").1.disk =
      some ((add_expense { expenses := [], disk := none } sampleNow (-5) "Food" "").1.expenses) ∧
    amount_received (some (-5)) = none) :=
  ⟨by norm_num, c1_amended { expenses := [], disk := none } sampleNow "Food" "" (-5)
    (by norm_num)⟩

/-- C6: a record whose stored timestamp string is unparseable is skipped by
`get_summary` — the summary over a ledger containing it equals the summary
over the ledger without it (so it reaches neither total, count, nor the
category mapping), and the summarization of the rest completes normally. -/
theorem c6_malformed_skipped (pre post : List Expense) (bad : Expense) (period : String)
    (now : DateTime) (hb : bad.date = DateVal.malformed) :
    get_summary (pre ++ bad :: post) period now = get_summary (pre ++ post) period now :=
  get_summary_drop pre post bad period now (by simp [hb, parsedGeStart])

theorem c6_witness :
    eBadDate.date = DateVal.malformed ∧
    get_summary ([eFood1] ++ eBadDate :: []) "month" sampleNow =
      get_summary ([eFood1] ++ []) "month" sampleNow :=
  ⟨rfl, c6_malformed_skipped [eFood1] [] eBadDate "month" sampleNow rfl⟩

/-- C9: a record whose stored date parses offset-aware is excluded from
every period's summary: its comparison with the naive `start_date` raises
`TypeError` (`parsedGeStart` is `none`), the per-record guard skips it, and
the summary equals the one over the ledger without that record. -/
theorem c9_aware_excluded (pre post : List Expense) (bad : Expense) (t : DateTime)
    (off : Int) (period : String) (now : DateTime)
    (hb : bad.date = DateVal.aware t off) :
    parsedGeStart bad.date (startDate period now) = none ∧
    get_summary (pre ++ bad :: post) period now = get_summary (pre ++ post) period now :=
  ⟨by simp [hb, parsedGeStart],
    get_summary_drop pre post bad period now (by simp [hb, parsedGeStart])⟩

theorem c9_witness :
    eAware.date = DateVal.aware tMorning 0 ∧
    parsedGeStart eAware.date (startDate "all" sampleNow) = none ∧
    get_summary ([eFood1] ++ eAware :: []) "all" sampleNow =
      get_summary ([eFood1] ++ []) "all" sampleNow :=
  ⟨rfl, c9_aware_excluded [eFood1] [] eAware tMorning 0 "all" sampleNow rfl⟩

/-- C2: a (naive, valid) record timestamp is included by `get_summary`'s
filter exactly when it is at or after the period's lower bound: the start of
the current calendar day for `day`; now minus 7 days for `week`; the first
instant of the current month for `month`; the first instant of the current
year for `year`; and always (no lower bound) for any other period string,
`all` included. -/
theorem c2_period_bounds (expenses : List Expense) (now : DateTime) (e : Expense)
    (t : DateTime) (he : e ∈ expenses) (ht : e.date = DateVal.naive t)
    (hv : t.isValid = true) :
    (e ∈ summaryFiltered expenses "day" now ↔ DateTime.le (startOfDay now) t = true) ∧
    (e ∈ summaryFiltered expenses "week" now ↔ DateTime.le (subDays now 7) t = true) ∧
    (e ∈ summaryFiltered expenses "month" now ↔ DateTime.le (startOfMonth now) t = true) ∧
    (e ∈ summaryFiltered expenses "year" now ↔ DateTime.le (startOfYear now) t = true) ∧
    (∀ period, period ≠ "day" → period ≠ "week" → period ≠ "month" → period ≠ "year" →
      e ∈ summaryFiltered expenses period now) := by
  have hmem : ∀ s : DateTime,
      (e ∈ expenses.filter (fun x => (parsedGeStart x.date s).getD false)) ↔
        DateTime.le s t = true := by
    intro s
    rw [List.mem_filter]
    simp [he, ht, parsedGeStart]
  refine ⟨?_, ?_, ?_, ?_, ?_⟩
  · rw [summaryFiltered, show startDate "day" now = startOfDay now by simp [startDate]]
    exact hmem _
  · rw [summaryFiltered, show startDate "week" now = subDays now 7 by simp [startDate]]
    exact hmem _
  · rw [summaryFiltered, show startDate "month" now = startOfMonth now by simp [startDate]]
    exact hmem _
  · rw [summaryFiltered, show startDate "year" now = startOfYear now by simp [startDate]]
    exact hmem _
  · intro period h1 h2 h3 h4
    have hs : startDate period now = datetimeMin := by
      simp [startDate, h1, h2, h3, h4]
    rw [summaryFiltered, hs]
    exact (hmem _).mpr (datetimeMin_le t hv)

theorem c2_witness :
    eFood1 ∈ [eFood1] ∧ eFood1.date = DateVal.naive tMorning ∧ tMorning.isValid = true ∧
    eFood1 ∈ summaryFiltered [eFood1] "day" sampleNow := by
  have h := c2_period_bounds [eFood1] sampleNow eFood1 tMorning (by simp) rfl rfl
  exact ⟨by simp, rfl, rfl, h.1.mpr rfl⟩

/-- Over the exact rational values of the amounts, `get_summary "all"` on a
ledger of well-formed records maps each category to the sum of its records'
amounts, totals all amounts, counts all records, and all three are invariant
under permutations of the ledger.  (Of the program's floats only the count
clauses survive; see the float-fidelity theorems.) -/
theorem exact_category_aggregation (expenses : List Expense) (now : DateTime)
    (hw : ∀ e ∈ expenses, ∃ t, e.date = DateVal.naive t ∧ t.isValid = true) :
    (get_summary expenses "all" now).total = (expenses.map Expense.amount).sum ∧
    (get_summary expenses "all" now).count = expenses.length ∧
    (∀ c, lookupCat (get_summary expenses "all" now).by_category c =
        ((expenses.filter (fun e => e.category = c)).map Expense.amount).sum) ∧
    ∀ l', expenses.Perm l' →
      (get_summary l' "all" now).total = (get_summary expenses "all" now).total ∧
      (get_summary l' "all" now).count = (get_summary expenses "all" now).count ∧
      ∀ c, lookupCat (get_summary l' "all" now).by_category c =
        lookupCat (get_summary expenses "all" now).by_category c := by
  have hfil : ∀ l : List Expense,
      (∀ e ∈ l, ∃ t, e.date = DateVal.naive t ∧ t.isValid = true) →
      summaryFiltered l "all" now = l := by
    intro l hl
    rw [summaryFiltered]
    apply List.filter_eq_self.mpr
    intro e hee
    obtain ⟨t, ht, hv⟩ := hl e hee
    rw [ht, show startDate "all" now = datetimeMin by simp [startDate]]
    simp [parsedGeStart, datetimeMin_le t hv]
  obtain ⟨h1, h2, h3⟩ := get_summary_eval expenses "all" now
  rw [hfil expenses hw] at h1 h2 h3
  refine ⟨h1, h2, h3, fun l' hp => ?_⟩
  have hw' : ∀ e ∈ l', ∃ t, e.date = DateVal.naive t ∧ t.isValid = true :=
    fun e hee => hw e (hp.mem_iff.mpr hee)
  obtain ⟨g1, g2, g3⟩ := get_summary_eval l' "all" now
  rw [hfil l' hw'] at g1 g2 g3
  refine ⟨?_, ?_, fun c => ?_⟩
  · rw [g1, h1]
    exact ((hp.map Expense.amount).sum_eq).symm
  · rw [g2, h2]
    exact hp.length_eq.symm
  · rw [g3 c, h3 c]
    exact (((hp.filter _).map Expense.amount).sum_eq).symm

theorem lookupCatF_upsert (m : List (String × F64)) (c' : String) (a : F64) (c : String) :
    lookupCatF (upsertCategoryF m c' a) c =
      if c' = c then fadd (lookupCatF m c) a else lookupCatF m c := by
  induction m with
  | nil =>
      simp [upsertCategoryF, lookupCatF]
  | cons hd tl ih =>
      obtain ⟨c0, v0⟩ := hd
      simp only [upsertCategoryF]
      by_cases h0 : c0 = c'
      · subst h0
        simp only [if_pos rfl, lookupCatF]
        split_ifs <;> rfl
      · simp only [if_neg h0, lookupCatF]
        by_cases h1 : c0 = c
        · have h2 : ¬ c' = c := fun hc => h0 (h1.trans hc.symm)
          simp [if_pos h1, if_neg h2]
        · simp only [if_neg h1]
          exact ih

/-- The per-category accumulated value is the left fold of float addition
over that category's amounts in ledger order — no algebraic law of `fadd`
is needed, only the order of the updates. -/
theorem lookupCatF_fold (l : List ExpenseF) (m0 : List (String × F64)) (c : String) :
    lookupCatF (l.foldl (fun m e => upsertCategoryF m e.category e.amount) m0) c =
      List.foldl fadd (lookupCatF m0 c)
        ((l.filter (fun e => e.category = c)).map ExpenseF.amount) := by
  induction l generalizing m0 with
  | nil => simp
  | cons e l ih =>
      simp only [List.foldl_cons]
      rw [ih, lookupCatF_upsert]
      by_cases h : e.category = c
      · simp [List.filter_cons, h]
      · simp [List.filter_cons, h]

/-- The float-fidelity evaluation of `get_summary`, over the filtered record
list: Python's `sum` and the dict accumulation are both left folds of float
addition from `float(0)`, uniformly in the empty-ledger early return. -/
theorem get_summary_float_eval (expenses : List ExpenseF) (period : String) (now : DateTime) :
    (get_summary_float expenses period now).count =
        (summaryFilteredF expenses period now).length ∧
    (get_summary_float expenses period now).total =
        List.foldl fadd zeroF ((summaryFilteredF expenses period now).map ExpenseF.amount) ∧
    ∀ c, lookupCatF (get_summary_float expenses period now).by_category c =
        List.foldl fadd zeroF
          (((summaryFilteredF expenses period now).filter (fun e => e.category = c)).map
            ExpenseF.amount) := by
  by_cases h : expenses.isEmpty
  · have h' : expenses = [] := List.isEmpty_iff.mp h
    subst h'
    exact ⟨by simp [get_summary_float, summaryFilteredF],
      by simp [get_summary_float, summaryFilteredF],
      fun c => by simp [get_summary_float, summaryFilteredF, lookupCatF]⟩
  · have hne : expenses.isEmpty = false := by
      cases hb : expenses.isEmpty
      · rfl
      · exact absurd hb h
    refine ⟨?_, ?_, fun c => ?_⟩
    · simp [get_summary_float, hne]
    · simp [get_summary_float, hne]
    · simp only [get_summary_float, hne, Bool.false_eq_true, if_false, byCategoryOfF]
      rw [lookupCatF_fold]
      simp [lookupCatF]

/-- With well-formed naive timestamps, the `all` filter keeps every record,
at float fidelity too. -/
theorem summaryFilteredF_all (expenses : List ExpenseF) (now : DateTime)
    (hw : ∀ e ∈ expenses, ∃ t, e.date = DateVal.naive t ∧ t.isValid = true) :
    summaryFilteredF expenses "all" now = expenses := by
  rw [summaryFilteredF]
  apply List.filter_eq_self.mpr
  intro e hee
  obtain ⟨t, ht, hv⟩ := hw e hee
  rw [ht, show startDate "all" now = datetimeMin by simp [startDate]]
  simp [parsedGeStart, datetimeMin_le t hv]

/-- C7 fails as stated on the code: the summary is not independent of the
insertion order, because the program sums IEEE-754 floats.  With the
reachable amounts 0.1, 0.2, 0.3 the ledger and its reversal — a permutation
of the same records — give `summarize('all')` totals `0.6000000000000001`
(the double `1351079888211149 * 2^-51`) and `0.6` (the double
`5404319552844595 * 2^-53`) respectively. -/
theorem c7_counterexample :
    [eC1, eC2, eC3].Perm [eC3, eC2, eC1] ∧
    (get_summary_float [eC1, eC2, eC3] "all" sampleNow).total = ⟨1351079888211149, -51⟩ ∧
    (get_summary_float [eC3, eC2, eC1] "all" sampleNow).total = ⟨5404319552844595, -53⟩ ∧
    (get_summary_float [eC1, eC2, eC3] "all" sampleNow).total ≠
      (get_summary_float [eC3, eC2, eC1] "all" sampleNow).total := by
  refine ⟨by decide, by decide, by decide, by decide⟩

/-- C7 amended: `summarize('all')` counts every well-formed record,
order-independently; each category label maps to the left-to-right binary64
sum of the amounts of the records bearing that label, and the total is the
binary64 sum of all amounts in ledger order.  These float sums agree with
the exact sums — and the result is insertion-order-independent — when every
addition is exact, as for the integer example {Food: 10, Food: 5,
Transport: 20}: every insertion order yields byCategory
{Food: 15, Transport: 20}, total 35, count 3. -/
theorem c7_float_aggregation (expenses : List ExpenseF) (now : DateTime)
    (hw : ∀ e ∈ expenses, ∃ t, e.date = DateVal.naive t ∧ t.isValid = true) :
    (get_summary_float expenses "all" now).count = expenses.length ∧
    (∀ l', expenses.Perm l' → (get_summary_float l' "all" now).count = expenses.length) ∧
    (∀ c, lookupCatF (get_summary_float expenses "all" now).by_category c =
        List.foldl fadd zeroF
          ((expenses.filter (fun e => e.category = c)).map ExpenseF.amount)) ∧
    (get_summary_float expenses "all" now).total =
      List.foldl fadd zeroF (expenses.map ExpenseF.amount) ∧
    ∀ l', demoLedgerF.Perm l' →
      (get_summary_float l' "all" sampleNow).total = floatOfNat 35 ∧
      (get_summary_float l' "all" sampleNow).count = 3 ∧
      lookupCatF (get_summary_float l' "all" sampleNow).by_category "Food" = floatOfNat 15 ∧
      lookupCatF (get_summary_float l' "all" sampleNow).by_category "Transport" =
        floatOfNat 20 := by
  obtain ⟨h1, h2, h3⟩ := get_summary_float_eval expenses "all" now
  rw [summaryFilteredF_all expenses now hw] at h1 h2 h3
  refine ⟨h1, fun l' hp => ?_, h3, h2, fun l' hp => ?_⟩
  · obtain ⟨g1, -, -⟩ := get_summary_float_eval l' "all" now
    rw [summaryFilteredF_all l' now (fun e hee => hw e (hp.mem_iff.mpr hee))] at g1
    rw [g1]
    exact hp.length_eq.symm
  · have hm : l' ∈ demoLedgerF.permutations' := List.mem_permutations'.mpr hp.symm
    have hall : ∀ x ∈ demoLedgerF.permutations',
        (get_summary_float x "all" sampleNow).total = floatOfNat 35 ∧
        (get_summary_float x "all" sampleNow).count = 3 ∧
        lookupCatF (get_summary_float x "all" sampleNow).by_category "Food" = floatOfNat 15 ∧
        lookupCatF (get_summary_float x "all" sampleNow).by_category "Transport" =
          floatOfNat 20 := by
      decide
    exact hall l' hm

theorem c7_witness :
    (∀ e ∈ demoLedgerF, ∃ t, e.date = DateVal.naive t ∧ t.isValid = true) ∧
    ((get_summary_float demoLedgerF "all" sampleNow).count = demoLedgerF.length ∧
    (∀ l', demoLedgerF.Perm l' →
      (get_summary_float l' "all" sampleNow).count = demoLedgerF.length) ∧
    (∀ c, lookupCatF (get_summary_float demoLedgerF "all" sampleNow).by_category c =
        List.foldl fadd zeroF
          ((demoLedgerF.filter (fun e => e.category = c)).map ExpenseF.amount)) ∧
    (get_summary_float demoLedgerF "all" sampleNow).total =
      List.foldl fadd zeroF (demoLedgerF.map ExpenseF.amount) ∧
    ∀ l', demoLedgerF.Perm l' →
      (get_summary_float l' "all" sampleNow).total = floatOfNat 35 ∧
      (get_summary_float l' "all" sampleNow).count = 3 ∧
      lookupCatF (get_summary_float l' "all" sampleNow).by_category "Food" = floatOfNat 15 ∧
      lookupCatF (get_summary_float l' "all" sampleNow).by_category "Transport" =
        floatOfNat 20) := by
  have hw : ∀ e ∈ demoLedgerF, ∃ t, e.date = DateVal.naive t ∧ t.isValid = true := by
    intro e hee
    fin_cases hee <;> exact ⟨tMorning, rfl, rfl⟩
  exact ⟨hw, c7_float_aggregation demoLedgerF sampleNow hw⟩

/-- C5: `get_recent_expenses` returns at most `limit` records, namely a
prefix of a sorted-by-date-key-descending permutation of the ledger; in
particular records carrying naive timestamps appear most recent first.  The
function only reads the ledger (`sorted` builds a fresh list), so the stored
sequence is neither mutated nor reordered. -/
theorem c5_recent_order (expenses : List Expense) (limit : Nat) :
    (get_recent_expenses expenses limit).length ≤ limit ∧
    (∃ s : List Expense, s.Perm expenses ∧ s.Sorted recentOrder ∧
      get_recent_expenses expenses limit = s.take limit) ∧
    (get_recent_expenses expenses limit).Pairwise (fun a b =>
      ∀ ta tb, a.date = DateVal.naive ta → b.date = DateVal.naive tb →
        DateTime.le tb ta = true) := by
  haveI htot : IsTotal Expense recentOrder :=
    ⟨fun a b => DateVal.keyLe_total b.date a.date⟩
  haveI htrans : IsTrans Expense recentOrder :=
    ⟨fun a b c h1 h2 => DateVal.keyLe_trans c.date b.date a.date h2 h1⟩
  have hsorted : (List.insertionSort recentOrder expenses).Sorted recentOrder :=
    List.sorted_insertionSort recentOrder expenses
  refine ⟨?_, ⟨List.insertionSort recentOrder expenses,
    List.perm_insertionSort recentOrder expenses, hsorted, rfl⟩, ?_⟩
  · rw [get_recent_expenses]
    exact List.length_take_le limit (List.insertionSort recentOrder expenses)
  · have hp : (get_recent_expenses expenses limit).Pairwise recentOrder :=
      List.Pairwise.sublist (List.take_sublist _ _) hsorted
    refine hp.imp ?_
    intro a b hr ta tb hta htb
    rw [recentOrder, hta, htb] at hr
    exact hr

/-- C3 fails as stated on the code: on a ledger holding two records with the
same id (reachable: add ids 1, 2, 3; delete 2; add again yields a second id
3), a first `delete_expense 3` succeeds and the second call with the same id
returns `True` again — not "not found". -/
theorem c3_counterexample :
    (delete_expense dupStore 3).2 = true ∧
    (delete_expense (delete_expense dupStore 3).1 3).2 = true ∧
    ¬ ((delete_expense (delete_expense dupStore 3).1 3).2 = false) := by
  refine ⟨rfl, rfl, ?_⟩
  intro h
  exact absurd h (by simp [delete_expense, dupStore, removeFirst, eFood1, eDupA, eDupB])

/-- C3 amended: `delete_expense` on an absent id returns `false` and leaves
the tracker (memory and disk) untouched; on a present id it removes exactly
the first matching record, persists the reduced ledger and returns `true`;
and the second call with the same id returns "not found" provided the id
occurred at most once (ids may collide after deletions, in which case the
second call deletes the next match instead). -/
theorem c3_delete (self : ExpenseTracker) (eid : Int) :
    ((∀ x ∈ self.expenses, x.id ≠ eid) → delete_expense self eid = (self, false)) ∧
    ∀ l1 e l2, self.expenses = l1 ++ e :: l2 → e.id = eid → (∀ x ∈ l1, x.id ≠ eid) →
      (delete_expense self eid).1.expenses = l1 ++ l2 ∧
      (delete_expense self eid).1.disk = some (l1 ++ l2) ∧
      (delete_expense self eid).2 = true ∧
      ((∀ x ∈ l2, x.id ≠ eid) →
        delete_expense (delete_expense self eid).1 eid = ((delete_expense self eid).1, false)) := by
  constructor
  · intro h
    exact delete_not_found self eid (removeFirst_eq_none self.expenses eid h)
  · intro l1 e l2 hsplit he h1
    have hr : removeFirst self.expenses eid = some (l1 ++ l2) := by
      rw [hsplit]
      exact removeFirst_append l1 l2 e eid he h1
    refine ⟨by simp [delete_expense, hr], by simp [delete_expense, hr],
      by simp [delete_expense, hr], fun h2 => ?_⟩
    have hall : ∀ x ∈ l1 ++ l2, x.id ≠ eid := by
      intro x hx
      rcases List.mem_append.mp hx with hx' | hx'
      · exact h1 x hx'
      · exact h2 x hx'
    have hm : (delete_expense self eid).1.expenses = l1 ++ l2 := by
      simp [delete_expense, hr]
    exact delete_not_found (delete_expense self eid).1 eid
      (by rw [hm]; exact removeFirst_eq_none (l1 ++ l2) eid hall)

theorem c3_witness :
    ({ expenses := [eFood1, eFood2], disk := some [eFood1, eFood2] } :
        ExpenseTracker).expenses = [eFood1] ++ eFood2 :: [] ∧
    eFood2.id = 2 ∧ (∀ x ∈ [eFood1], x.id ≠ 2) ∧
    ((delete_expense { expenses := [eFood1, eFood2], disk := some [eFood1, eFood2] } 2).1.expenses
        = [eFood1] ++ [] ∧
      (delete_expense { expenses := [eFood1, eFood2], disk := some [eFood1, eFood2] } 2).1.disk
        = some ([eFood1] ++ []) ∧
      (delete_expense { expenses := [eFood1, eFood2], disk := some [eFood1, eFood2] } 2).2
        = true ∧
      ((∀ x ∈ ([] : List Expense), x.id ≠ 2) →
        delete_expense
            (delete_expense { expenses := [eFood1, eFood2], disk := some [eFood1, eFood2] } 2).1 2
          = ((delete_expense { expenses := [eFood1, eFood2], disk := some [eFood1, eFood2] } 2).1,
            false))) := by
  have h1 : ∀ x ∈ [eFood1], x.id ≠ (2 : Int) := by
    intro x hx
    simp only [List.mem_singleton] at hx
    subst hx
    simp [eFood1]
  exact ⟨rfl, rfl, h1,
    (c3_delete { expenses := [eFood1, eFood2], disk := some [eFood1, eFood2] } 2).2
      [eFood1] eFood2 [] rfl rfl h1⟩

/-- C10 fails as stated on the code: "total equals the sum of the
by-category values" is a regrouping identity, and the program's float
addition does not regroup.  With amounts 0.1 (Food), 0.2 and 0.3 (both
Transport), `summarize('all')` computes total
`0.1 + 0.2 + 0.3 = 0.6000000000000001` while the by-category values are
`0.1` and `0.2 + 0.3 = 0.5`, which sum to `0.6`. -/
theorem c10_counterexample :
    (get_summary_float [eC1, eC2, eC3] "all" sampleNow).total = ⟨1351079888211149, -51⟩ ∧
    sumValuesF (get_summary_float [eC1, eC2, eC3] "all" sampleNow).by_category =
      ⟨5404319552844595, -53⟩ ∧
    (get_summary_float [eC1, eC2, eC3] "all" sampleNow).total ≠
      sumValuesF (get_summary_float [eC1, eC2, eC3] "all" sampleNow).by_category := by
  refine ⟨by decide, by decide, by decide⟩

/-- C10 amended: for every ledger and period, the summary's count equals the
number of contributing (filtered) records, a count of 0 forces a zero total
and an empty category mapping, and the total is the left-to-right binary64
sum of the contributing amounts.  The stronger clause "total equals the sum
of the by-category values" holds of the exact rational values of the
amounts, but under float rounding only up to the regrouping error. -/
theorem c10_float_invariant (lf : List ExpenseF) (lq : List Expense) (period : String)
    (now : DateTime) :
    (get_summary_float lf period now).count = (summaryFilteredF lf period now).length ∧
    ((get_summary_float lf period now).count = 0 →
      (get_summary_float lf period now).total = zeroF ∧
      (get_summary_float lf period now).by_category = []) ∧
    (get_summary_float lf period now).total =
      List.foldl fadd zeroF ((summaryFilteredF lf period now).map ExpenseF.amount) ∧
    (get_summary lq period now).total = sumValues (get_summary lq period now).by_category := by
  obtain ⟨h1, h2, -⟩ := get_summary_float_eval lf period now
  refine ⟨h1, fun hc => ?_, h2, (exact_summary_invariant lq period now).1⟩
  have hf : summaryFilteredF lf period now = [] := by
    rw [h1] at hc
    exact List.length_eq_zero.mp hc
  constructor
  · rw [h2, hf]
    rfl
  · by_cases h : lf.isEmpty
    · have h' : lf = [] := List.isEmpty_iff.mp h
      subst h'
      rfl
    · have hne : lf.isEmpty = false := by
        cases hb : lf.isEmpty
        · rfl
        · exact absurd hb h
      simp [get_summary_float, hne, hf, byCategoryOfF]

end Bot
